import Mathlib

/-!
Verification of the HdRezkaDownloader repository (src/HdRezkaDownloader.py)
against its natural-language specification.

The Python source is shallowly embedded: pure helpers (`get_quality_priority`,
`sanitize`-style string work, translator/quality selection, catalog building,
translator filtering) become Lean functions; the stateful download manager
becomes explicit state passing over a `DMState` record; network and the
HdRezkaApi collaborator become oracle functions; user prompts become
choice-function parameters.  Machine-level details (HTTP, disk, tqdm progress
bars, logging) are abstracted into the oracles, but control flow, counters and
data transformations follow the Python line by line.
-/

/-! ## String utilities

Python's `key in quality` substring test, used by `get_quality_priority`
(source lines 244-258) and the preferred-translator check (line 275).
-/

/-- Bool test: the first char list is an initial segment of the second. -/
def startsWithL : List Char → List Char → Bool
  | [], _ => true
  | _ :: _, [] => false
  | a :: as, b :: bs => a == b && startsWithL as bs

/-- Bool test: `sub` occurs contiguously inside `s` (Python `sub in s`). -/
def hasSubL (sub : List Char) : List Char → Bool
  | [] => startsWithL sub []
  | b :: bs => startsWithL sub (b :: bs) || hasSubL sub bs

/-- Python's substring operator `sub in s` on strings. -/
def strContains (sub s : String) : Bool :=
  hasSubL sub.data s.data

/-! ## Quality priority (source lines 244-258)

`get_quality_priority` walks the `quality_map` dict in insertion order and
returns the value of the first key that is a substring of the label, else 0.
-/

/-- The `quality_map` dict of `get_quality_priority`, in insertion order. -/
def quality_map : List (String × Nat) :=
  [("2160p", 5), ("4K", 5),
   ("1440p", 4), ("2K", 4),
   ("1080p", 3), ("FHD", 3),
   ("720p", 2), ("HD", 2),
   ("480p", 1), ("SD", 1),
   ("360p", 0)]

/-- Priority of a quality label for sorting (source `get_quality_priority`). -/
def get_quality_priority (quality : String) : Nat :=
  match quality_map.find? (fun p => strContains p.1 quality) with
  | some p => p.2
  | none => 0

/-! ## Stable descending sort

Python's `sorted(qualities, key=get_quality_priority, reverse=True)`
(source line 296): stable, descending by key.  Insertion places an element
before the first existing element whose key is not larger, which preserves
the original order of equal-key elements.
-/

/-- Insert `x` into `l` keeping `l` descending by `key`; `x` goes before the
first element whose key is `≤ key x`, so earlier-inserted ties stay behind. -/
def insertByDesc {α : Type} (key : α → Nat) (x : α) : List α → List α
  | [] => [x]
  | y :: ys => if key x < key y then y :: insertByDesc key x ys else x :: y :: ys

/-- Stable sort, descending by `key` (Python `sorted(-, key, reverse=True)`). -/
def sortByDesc {α : Type} (key : α → Nat) : List α → List α
  | [] => []
  | x :: xs => insertByDesc key x (sortByDesc key xs)

/-! ## Configuration (source lines 42-94)

`DownloadConfig` with its defaults; `load_config`/`save_config` modelled over
an explicit config-file state.  The on-disk file is `absent`, `unreadable`
(open/parse raises), or `valid` with a full record (as `save_config` always
writes every key).  Every exception branch in the Python is caught, so the
embedding is a total function.
-/

structure DownloadConfig where
  download_dir : String
  max_retries : Nat
  chunk_size : Nat
  timeout : Nat
  max_workers : Nat
  preferred_quality : Option String
  preferred_translator : Option String
  auto_select_single_option : Bool
  auto_reload : Bool
deriving DecidableEq

/-- The field defaults from `DownloadConfig.__init__` (source lines 44-53). -/
def defaultConfig : DownloadConfig :=
  { download_dir := "Videos"
    max_retries := 3
    chunk_size := 8192
    timeout := 30
    max_workers := 4
    preferred_quality := none
    preferred_translator := none
    auto_select_single_option := true
    auto_reload := false }

/-- State of the persisted config file. -/
inductive ConfigFileState where
  | absent
  | unreadable
  | valid (d : DownloadConfig)
deriving DecidableEq

/-- `DownloadConfig.save_config` (source lines 73-94): writes all keys. -/
def save_config (c : DownloadConfig) : ConfigFileState :=
  ConfigFileState.valid c

/-- `DownloadConfig.load_config` (source lines 55-71): a valid file sets every
field; a missing file triggers `save_config`; an unreadable/corrupt file raises
inside the `try`, is caught, and triggers `save_config`.  Returns the resulting
in-memory config and file state. -/
def load_config (c : DownloadConfig) (f : ConfigFileState) :
    DownloadConfig × ConfigFileState :=
  match f with
  | ConfigFileState.valid d => (d, f)
  | ConfigFileState.absent => (c, save_config c)
  | ConfigFileState.unreadable => (c, save_config c)

/-! ## Translator and quality selection (source lines 260-314)

`select_translator` / `select_quality` are interactive; the embedding returns
which route the function takes: silent auto-selection of a lone option,
silent use of the configured preference, or a prompt over an option list
(the list shown to the user, in the order shown; the eventual numeric choice
indexes it).  An empty input list raises `ValueError`, embedded as `.error`.
-/

/-- How a selection was (or would be) resolved. -/
inductive PickStep (α : Type) where
  | autoSingle (x : α)
  | preferred (x : α)
  | prompted (options : List α)
deriving DecidableEq

/-- The per-translator display record built by `process_series`
(source lines 455-460): name and premium flag. -/
structure TInfo where
  name : String
  premium : Bool
deriving DecidableEq

/-- The preferred-translator scan of `select_translator` (source lines
273-277): if `config.preferred_translator` is truthy (non-`None`, non-empty),
return the first translator whose name contains it as a substring. -/
def prefTranslatorMatch (cfg : DownloadConfig) (ts : List (Nat × TInfo)) :
    Option (Nat × TInfo) :=
  match cfg.preferred_translator with
  | none => none
  | some p =>
    if p.isEmpty then none
    else ts.find? (fun td => strContains p td.2.name)

/-- `select_translator` (source lines 260-288).  `ts` is the translators dict
as an (id, info) association list in iteration order; `auto_select` is the
function's parameter (default `True` in Python). -/
def select_translator (ts : List (Nat × TInfo)) (cfg : DownloadConfig)
    (auto_select : Bool) : Except String (PickStep Nat) :=
  match ts with
  | [] => Except.error "Нет доступных переводчиков"
  | t :: rest =>
    if rest.isEmpty && auto_select then
      Except.ok (PickStep.autoSingle t.1)
    else
      match prefTranslatorMatch cfg (t :: rest) with
      | some td => Except.ok (PickStep.preferred td.1)
      | none => Except.ok (PickStep.prompted ((t :: rest).map Prod.fst))

/-- The preferred-quality check of `select_quality` (source line 304):
`config.preferred_quality` truthy and an exact member of the original
(unsorted) quality list. -/
def prefQualityMatch (cfg : DownloadConfig) (qs : List String) : Option String :=
  match cfg.preferred_quality with
  | none => none
  | some p =>
    if p.isEmpty then none
    else if p ∈ qs then some p else none

/-- `select_quality` (source lines 290-314): sort by priority descending
(stable), auto-select a lone quality, else preference, else prompt over the
sorted list. -/
def select_quality (qs : List String) (cfg : DownloadConfig)
    (auto_select : Bool) : Except String (PickStep String) :=
  match qs with
  | [] => Except.error "Нет доступных качеств"
  | _ :: _ =>
    match sortByDesc get_quality_priority qs, auto_select with
    | [q], true => Except.ok (PickStep.autoSingle q)
    | _, _ =>
      match prefQualityMatch cfg qs with
      | some p => Except.ok (PickStep.preferred p)
      | none => Except.ok (PickStep.prompted (sortByDesc get_quality_priority qs))

/-- Resolve a `PickStep` to a concrete value.  For a prompt, `user` models
`get_user_choice`: it returns the 1-based index the user types for the shown
option list (the Python indexes `list[choice - 1]`). -/
def pickResolve {α : Type} [Inhabited α] (step : PickStep α)
    (user : List α → Nat) : α :=
  match step with
  | PickStep.autoSingle x => x
  | PickStep.preferred x => x
  | PickStep.prompted opts => opts.getD (user opts - 1) default

/-! ## Download manager (source lines 96-176)

`DownloadManager.stats` counters and `download_file`.  The filesystem is the
list of existing paths; the network is an oracle giving, per URL, the HEAD
result (content length, `none` = transport error) and the GET body (list of
chunk lengths, `none` = transport error).  `netRequests` counts issued HTTP
requests.  The `finally:` block increments `total_downloads` on every exit
path, including the early already-exists return.
-/

structure DLStats where
  total_downloads : Nat
  successful_downloads : Nat
  failed_downloads : Nat
  total_bytes : Nat
deriving DecidableEq

/-- The zeroed stats dict of `DownloadManager.__init__` (source lines 103-108). -/
def initStats : DLStats :=
  { total_downloads := 0, successful_downloads := 0
    failed_downloads := 0, total_bytes := 0 }

/-- Network oracle: HEAD (content length) and GET (chunk sizes) per URL. -/
structure NetOracle where
  head : String → Option Nat
  body : String → Option (List Nat)

/-- Download-manager state: existing files, stats, issued request count. -/
structure DMState where
  fs : List String
  stats : DLStats
  netRequests : Nat
deriving DecidableEq

/-- The `finally:` block of `download_file` (source lines 174-176). -/
def bumpTotal (s : DLStats) : DLStats :=
  { s with total_downloads := s.total_downloads + 1 }

/-- `DownloadManager.download_file` (source lines 124-176): already-existing
path short-circuits to success; otherwise HEAD then streaming GET, writing the
file and accumulating `total_bytes` per chunk and `successful_downloads`;
transport errors return failure.  Every path passes through the `finally:`
increment of `total_downloads`. -/
def download_file (net : NetOracle) (st : DMState) (url filepath : String) :
    (Bool × String) × DMState :=
  if filepath ∈ st.fs then
    ((true, "Файл уже существует"), { st with stats := bumpTotal st.stats })
  else
    match net.head url with
    | none =>
      ((false, "Ошибка сети"),
       { st with netRequests := st.netRequests + 1, stats := bumpTotal st.stats })
    | some _len =>
      match net.body url with
      | none =>
        ((false, "Ошибка сети"),
         { st with netRequests := st.netRequests + 2, stats := bumpTotal st.stats })
      | some chunks =>
        ((true, "Успешно"),
         { fs := filepath :: st.fs
           netRequests := st.netRequests + 2
           stats :=
             { total_downloads := st.stats.total_downloads + 1
               successful_downloads := st.stats.successful_downloads + 1
               failed_downloads := st.stats.failed_downloads
               total_bytes := st.stats.total_bytes + chunks.foldl (fun a c => a + c) 0 } })

/-- A sequence of `download_file` calls against one manager, returning the
final state and each call's result in order. -/
def runDownloads (net : NetOracle) : List (String × String) → DMState →
    DMState × List (Bool × String)
  | [], st => (st, [])
  | (u, p) :: rest, st =>
    let r := download_file net st u p
    let rr := runDownloads net rest r.2
    (rr.1, r.1 :: rr.2)

/-! ## Series data and the canonical catalog (source lines 374-448)

`rezka.seriesInfo` is a dict translator-id → record with `translator_name`,
`premium` and `episodes` (a dict season → dict episode → streams).  The
embedding keeps the keys: `episodes` is an association list season ↦ list of
episode numbers (the keys of the per-season dict).
-/

/-- One entry of `rezka.seriesInfo`. -/
structure TranslatorData where
  translator_name : String
  premium : Bool
  episodes : List (Nat × List Nat)
deriving DecidableEq

/-- Insert an episode number into a strictly ascending duplicate-free list,
keeping it strictly ascending and duplicate-free.  This is the Python
set-then-`sorted` of lines 384-394: a hash set followed by `sorted()` yields
exactly the strictly ascending enumeration of the accumulated numbers. -/
def insEp (e : Nat) : List Nat → List Nat
  | [] => [e]
  | x :: xs =>
    if e < x then e :: x :: xs
    else if e = x then x :: xs
    else x :: insEp e xs

/-- All episode numbers one translator's `episodes` dict offers for season
`s`, with multiplicity, in iteration order (source line 387-390 inner loop). -/
def epRawOf (eps : List (Nat × List Nat)) (s : Nat) : List Nat :=
  match eps with
  | [] => []
  | p :: rest => (if p.1 = s then p.2 else []) ++ epRawOf rest s

/-- All episode numbers any translator offers for season `s`, in iteration
order over `seriesInfo` (source lines 385-390 outer loop). -/
def seasonEpisodesRaw (info : List (Nat × TranslatorData)) (s : Nat) : List Nat :=
  match info with
  | [] => []
  | td :: rest => epRawOf td.2.episodes s ++ seasonEpisodesRaw rest s

/-- The canonical catalog entry for season `s`: the Python accumulates the
episode keys of every translator into `all_seasons[s]` (a set) and then
replaces it by `sorted(all_seasons[s])` (source lines 384-394). -/
def catalogSeason (info : List (Nat × TranslatorData)) (s : Nat) : List Nat :=
  (seasonEpisodesRaw info s).foldl (fun acc e => insEp e acc) []

/-! ## Translator filtering (source lines 437-452) -/

/-- The coverage test of the filtering loop (source lines 442-445): every
(season, episode) of the target is present in the translator's `episodes`
dict.  `List.lookup` is the dict access. -/
def hasAllEpisodes (eps : List (Nat × List Nat)) (target : List (Nat × Nat)) :
    Bool :=
  target.all (fun se =>
    match eps.lookup se.1 with
    | some lst => decide (se.2 ∈ lst)
    | none => false)

/-- `valid_translators` (source lines 437-448): the translators covering the
whole target, in `seriesInfo` iteration order. -/
def validTranslators (info : List (Nat × TranslatorData))
    (target : List (Nat × Nat)) : List (Nat × TranslatorData) :=
  info.filter (fun td => hasAllEpisodes td.2.episodes target)

/-- `formatted_translators` (source lines 455-460). -/
def formatTranslators (valid : List (Nat × TranslatorData)) :
    List (Nat × TInfo) :=
  valid.map (fun td => (td.1, { name := td.2.translator_name, premium := td.2.premium }))

/-! ## Batch download engine (source lines 462-522)

`rezka.getStream(season, episode, translation)` becomes a `StreamOracle`: its
arguments are the translator id, the number of earlier `getStream` calls for
the same (season, episode) in this run (so an oracle can make an episode fail
on its first attempt and succeed later, as the spec's retry scenario
requires), and the season/episode; it returns the manifest (quality ↦ first
URL of `stream.videos[quality]`) or `none` when the stream is unavailable.
-/

/-- `stream.videos`, reduced to quality ↦ first URL. -/
structure StreamManifest where
  videos : List (String × String)
deriving DecidableEq

/-- Stream oracle: translator id, prior attempt count for this key, season,
episode. -/
abbrev StreamOracle := Nat → Nat → Nat → Nat → Option StreamManifest

/-- Count of a key in the attempt log. -/
def keyCount (k : Nat × Nat) (l : List (Nat × Nat)) : Nat :=
  (l.filter (fun x => x = k)).length

/-- Zero-padded two-digit rendering: Python `f"{n:02d}"` for the n here. -/
def pad2 (n : Nat) : String :=
  if n < 10 then "0" ++ toString n else toString n

/-- The batch filename `f"S{season:02d}E{episode:02d}_{quality}.mp4"`
(source line 497). -/
def episodeFilename (s e : Nat) (quality : String) : String :=
  "S" ++ pad2 s ++ "E" ++ pad2 e ++ "_" ++ quality ++ ".mp4"

/-- Result of the download loop of `process_series` (source lines 485-511). -/
structure BatchResult where
  successful_downloads : Nat
  failed_downloads : List (Nat × Nat × String)
  dm : DMState
  attempts : List (Nat × Nat)
deriving DecidableEq

/-- The download loop of `process_series` (source lines 488-510): one
sequential pass over `episodes_to_download`; per episode, get the stream (log
the call in `attempts`), fail with "Поток недоступен" when it is missing or
lacks the selected quality, otherwise download to the deterministic filename
and record success or the failure message. -/
def runBatch (gs : StreamOracle) (net : NetOracle) (tid : Nat)
    (quality folder : String) :
    List (Nat × Nat) → DMState → List (Nat × Nat) → BatchResult
  | [], dm, att => ⟨0, [], dm, att⟩
  | (s, e) :: rest, dm, att =>
    let a := keyCount (s, e) att
    let att1 := att ++ [(s, e)]
    match gs tid a s e with
    | none =>
      let r := runBatch gs net tid quality folder rest dm att1
      ⟨r.successful_downloads, (s, e, "Поток недоступен") :: r.failed_downloads,
       r.dm, r.attempts⟩
    | some m =>
      match m.videos.lookup quality with
      | none =>
        let r := runBatch gs net tid quality folder rest dm att1
        ⟨r.successful_downloads, (s, e, "Поток недоступен") :: r.failed_downloads,
         r.dm, r.attempts⟩
      | some url =>
        let res := download_file net dm url (folder ++ "/" ++ episodeFilename s e quality)
        let r := runBatch gs net tid quality folder rest res.2 att1
        if res.1.1 then
          ⟨r.successful_downloads + 1, r.failed_downloads, r.dm, r.attempts⟩
        else
          ⟨r.successful_downloads, (s, e, res.1.2) :: r.failed_downloads,
           r.dm, r.attempts⟩

/-- Outcome of the `process_series` stages downstream of scope selection. -/
structure SeriesPhaseResult where
  ok : Bool
  err : Option String
  batch : Option BatchResult
  dm : DMState
  attempts : List (Nat × Nat)
deriving DecidableEq

/-- `process_series` from the translator filtering to the final report
(source lines 437-522), for an already-determined `episodes_to_download`
target: filter translators (abort when none qualifies, before any stream or
download request); select a translator (the call site passes `auto_select`
implicitly as its Python default `True`); probe the first target's stream for
the quality list; select a quality; run the single download pass; return
`successful_downloads > 0`.  `attempts` logs every `getStream` call. -/
def process_series_phase (info : List (Nat × TranslatorData))
    (target : List (Nat × Nat)) (cfg : DownloadConfig)
    (userT : List Nat → Nat) (userQ : List String → Nat)
    (gs : StreamOracle) (net : NetOracle) (dm : DMState) (folder : String) :
    SeriesPhaseResult :=
  match validTranslators info target with
  | [] => ⟨false, some "Нет переводчиков с необходимыми эпизодами", none, dm, []⟩
  | v :: vs =>
    match select_translator (formatTranslators (v :: vs)) cfg true with
    | Except.error e => ⟨false, some e, none, dm, []⟩
    | Except.ok step =>
      let tid := pickResolve step userT
      match target with
      | [] => ⟨false, some "list index out of range", none, dm, []⟩
      | (s0, e0) :: _ =>
        match gs tid 0 s0 e0 with
        | none =>
          ⟨false, some "Не удалось получить тестовый поток", none, dm, [(s0, e0)]⟩
        | some m =>
          match select_quality (m.videos.map Prod.fst) cfg true with
          | Except.error e => ⟨false, some e, none, dm, [(s0, e0)]⟩
          | Except.ok qstep =>
            let quality := pickResolve qstep userQ
            let r := runBatch gs net tid quality folder target dm [(s0, e0)]
            ⟨decide (0 < r.successful_downloads), none, some r, r.dm, r.attempts⟩

/-! ## Theorems: stable descending sort lemmas -/

theorem insertByDesc_mem {α : Type} (key : α → Nat) (x a : α) (l : List α) :
    a ∈ insertByDesc key x l ↔ a = x ∨ a ∈ l := by
  induction l with
  | nil => simp [insertByDesc]
  | cons y ys ih =>
    by_cases h : key x < key y
    · simp only [insertByDesc, if_pos h, List.mem_cons, ih]
      tauto
    · simp only [insertByDesc, if_neg h, List.mem_cons]

theorem insertByDesc_perm {α : Type} (key : α → Nat) (x : α) (l : List α) :
    List.Perm (insertByDesc key x l) (x :: l) := by
  induction l with
  | nil => simp [insertByDesc]
  | cons y ys ih =>
    by_cases h : key x < key y
    · rw [insertByDesc, if_pos h]
      exact (ih.cons y).trans (List.Perm.swap x y ys)
    · rw [insertByDesc, if_neg h]

theorem insertByDesc_pairwise {α : Type} (key : α → Nat) (x : α) (l : List α)
    (h : List.Pairwise (fun a b => key b ≤ key a) l) :
    List.Pairwise (fun a b => key b ≤ key a) (insertByDesc key x l) := by
  induction l with
  | nil => simp [insertByDesc]
  | cons y ys ih =>
    rw [List.pairwise_cons] at h
    obtain ⟨hy, hys⟩ := h
    by_cases hk : key x < key y
    · rw [insertByDesc, if_pos hk]
      rw [List.pairwise_cons]
      refine ⟨fun b hb => ?_, ih hys⟩
      rcases (insertByDesc_mem key x b ys).mp hb with hbx | hbys
      · exact hbx ▸ Nat.le_of_lt hk
      · exact hy b hbys
    · rw [insertByDesc, if_neg hk]
      rw [List.pairwise_cons]
      refine ⟨fun b hb => ?_, List.pairwise_cons.mpr ⟨hy, hys⟩⟩
      rcases List.mem_cons.mp hb with hby | hbys
      · exact hby ▸ Nat.le_of_not_lt hk
      · exact Nat.le_trans (hy b hbys) (Nat.le_of_not_lt hk)

theorem insertByDesc_filter {α : Type} (key : α → Nat) (x : α) (k : Nat)
    (l : List α) :
    (insertByDesc key x l).filter (fun z => key z == k)
      = (x :: l).filter (fun z => key z == k) := by
  induction l with
  | nil => rfl
  | cons y ys ih =>
    by_cases h : key x < key y
    · rw [insertByDesc, if_pos h]
      by_cases hx : key x = k
      · have hy : ¬ key y = k := fun hyk => Nat.lt_irrefl _ (hx ▸ hyk ▸ h)
        simp only [List.filter_cons, beq_iff_eq, hx, hy, if_pos, if_neg,
          decide_eq_true_eq, ih, decide_True, decide_False, ite_true, ite_false]
      · by_cases hy : key y = k
        · simp only [List.filter_cons, beq_iff_eq, hx, hy, ih, decide_True,
            decide_False, ite_true, ite_false]
        · simp only [List.filter_cons, beq_iff_eq, hx, hy, ih, decide_True,
            decide_False, ite_true, ite_false]
    · rw [insertByDesc, if_neg h]

theorem sortByDesc_perm {α : Type} (key : α → Nat) (l : List α) :
    List.Perm (sortByDesc key l) l := by
  induction l with
  | nil => exact List.Perm.refl []
  | cons x xs ih =>
    exact (insertByDesc_perm key x (sortByDesc key xs)).trans (ih.cons x)

theorem sortByDesc_pairwise {α : Type} (key : α → Nat) (l : List α) :
    List.Pairwise (fun a b => key b ≤ key a) (sortByDesc key l) := by
  induction l with
  | nil => exact List.Pairwise.nil
  | cons x xs ih => exact insertByDesc_pairwise key x (sortByDesc key xs) ih

theorem sortByDesc_filter {α : Type} (key : α → Nat) (k : Nat) (l : List α) :
    (sortByDesc key l).filter (fun z => key z == k)
      = l.filter (fun z => key z == k) := by
  induction l with
  | nil => rfl
  | cons x xs ih =>
    rw [sortByDesc, insertByDesc_filter, List.filter_cons, List.filter_cons, ih]

/-! ## Catalog lemmas -/

theorem insEp_mem (e a : Nat) (l : List Nat) :
    a ∈ insEp e l ↔ a = e ∨ a ∈ l := by
  induction l with
  | nil => simp [insEp]
  | cons x xs ih =>
    by_cases h1 : e < x
    · simp only [insEp, if_pos h1, List.mem_cons]
    · by_cases h2 : e = x
      · subst h2
        rw [insEp, if_neg h1, if_pos rfl]
        simp only [List.mem_cons]
        tauto
      · simp only [insEp, if_neg h1, if_neg h2, List.mem_cons, ih]
        tauto

theorem insEp_pairwise (e : Nat) (l : List Nat)
    (h : List.Pairwise (fun a b => a < b) l) :
    List.Pairwise (fun a b => a < b) (insEp e l) := by
  induction l with
  | nil => simp [insEp]
  | cons x xs ih =>
    rw [List.pairwise_cons] at h
    obtain ⟨hx, hxs⟩ := h
    by_cases h1 : e < x
    · rw [insEp, if_pos h1, List.pairwise_cons]
      refine ⟨fun b hb => ?_, List.pairwise_cons.mpr ⟨hx, hxs⟩⟩
      rcases List.mem_cons.mp hb with hbx | hbxs
      · exact hbx ▸ h1
      · exact Nat.lt_trans h1 (hx b hbxs)
    · by_cases h2 : e = x
      · rw [insEp, if_neg h1, if_pos h2]
        exact List.pairwise_cons.mpr ⟨hx, hxs⟩
      · rw [insEp, if_neg h1, if_neg h2, List.pairwise_cons]
        have hxe : x < e :=
          Nat.lt_of_le_of_ne (Nat.le_of_not_lt h1) (fun hxeq => h2 hxeq.symm)
        refine ⟨fun b hb => ?_, ih hxs⟩
        rcases (insEp_mem e b xs).mp hb with hbe | hbxs
        · exact hbe ▸ hxe
        · exact hx b hbxs

theorem foldl_insEp_pairwise (raw : List Nat) (acc : List Nat)
    (h : List.Pairwise (fun a b => a < b) acc) :
    List.Pairwise (fun a b => a < b) (raw.foldl (fun a e => insEp e a) acc) := by
  induction raw generalizing acc with
  | nil => exact h
  | cons e rest ih => exact ih (insEp e acc) (insEp_pairwise e acc h)

theorem foldl_insEp_mem (raw : List Nat) (acc : List Nat) (a : Nat) :
    a ∈ raw.foldl (fun a e => insEp e a) acc ↔ a ∈ raw ∨ a ∈ acc := by
  induction raw generalizing acc with
  | nil => simp
  | cons e rest ih =>
    simp only [List.foldl_cons, ih, insEp_mem, List.mem_cons]
    tauto

theorem epRawOf_mem (eps : List (Nat × List Nat)) (s e : Nat) :
    e ∈ epRawOf eps s ↔ ∃ p ∈ eps, p.1 = s ∧ e ∈ p.2 := by
  induction eps with
  | nil => simp [epRawOf]
  | cons p rest ih =>
    by_cases h : p.1 = s
    · simp only [epRawOf, if_pos h, List.mem_append, ih, List.mem_cons]
      constructor
      · rintro (hp | ⟨q, hq, hqs, hqe⟩)
        · exact ⟨p, Or.inl rfl, h, hp⟩
        · exact ⟨q, Or.inr hq, hqs, hqe⟩
      · rintro ⟨q, hq | hq, hqs, hqe⟩
        · exact Or.inl (hq ▸ hqe)
        · exact Or.inr ⟨q, hq, hqs, hqe⟩
    · simp only [epRawOf, if_neg h, List.nil_append, ih, List.mem_cons]
      constructor
      · rintro ⟨q, hq, hqs, hqe⟩
        exact ⟨q, Or.inr hq, hqs, hqe⟩
      · rintro ⟨q, hq | hq, hqs, hqe⟩
        · exact absurd (hq ▸ hqs) h
        · exact ⟨q, hq, hqs, hqe⟩

theorem seasonEpisodesRaw_mem (info : List (Nat × TranslatorData)) (s e : Nat) :
    e ∈ seasonEpisodesRaw info s ↔
      ∃ td ∈ info, ∃ p ∈ td.2.episodes, p.1 = s ∧ e ∈ p.2 := by
  induction info with
  | nil => simp [seasonEpisodesRaw]
  | cons td rest ih =>
    simp only [seasonEpisodesRaw, List.mem_append, ih, epRawOf_mem, List.mem_cons]
    constructor
    · rintro (⟨p, hp, hps, hpe⟩ | ⟨u, hu, p, hp, hps, hpe⟩)
      · exact ⟨td, Or.inl rfl, p, hp, hps, hpe⟩
      · exact ⟨u, Or.inr hu, p, hp, hps, hpe⟩
    · rintro ⟨u, hu | hu, p, hp, hps, hpe⟩
      · exact Or.inl ⟨p, hu ▸ hp, hps, hpe⟩
      · exact Or.inr ⟨u, hu, p, hp, hps, hpe⟩

theorem catalogSeason_pairwise (info : List (Nat × TranslatorData)) (s : Nat) :
    List.Pairwise (fun a b => a < b) (catalogSeason info s) :=
  foldl_insEp_pairwise (seasonEpisodesRaw info s) [] List.Pairwise.nil

theorem catalogSeason_mem (info : List (Nat × TranslatorData)) (s e : Nat) :
    e ∈ catalogSeason info s ↔
      ∃ td ∈ info, ∃ p ∈ td.2.episodes, p.1 = s ∧ e ∈ p.2 := by
  unfold catalogSeason
  rw [foldl_insEp_mem, seasonEpisodesRaw_mem]
  simp

/-! ## Translator-coverage lemma -/

theorem hasAllEpisodes_iff (eps : List (Nat × List Nat))
    (target : List (Nat × Nat)) :
    hasAllEpisodes eps target = true ↔
      ∀ se ∈ target, ∃ lst, eps.lookup se.1 = some lst ∧ se.2 ∈ lst := by
  unfold hasAllEpisodes
  rw [List.all_eq_true]
  constructor
  · intro h se hse
    have hs := h se hse
    cases heq : eps.lookup se.1 with
    | some lst =>
      rw [heq] at hs
      exact ⟨lst, rfl, of_decide_eq_true hs⟩
    | none =>
      rw [heq] at hs
      exact absurd hs (by simp)
  · intro h se hse
    obtain ⟨lst, hl, hm⟩ := h se hse
    rw [hl]
    exact decide_eq_true hm

/-! ## Claim theorems: catalog, filtering, quality order, config -/

/-- Claim C2: for every translator episode map, the canonical catalog gives,
for every season, a strictly ascending, duplicate-free episode sequence whose
members are exactly the union, over all translators, of that translator's
episode set for that season. -/
theorem claim_C2_catalog (info : List (Nat × TranslatorData)) (s : Nat) :
    List.Pairwise (fun a b => a < b) (catalogSeason info s)
    ∧ (catalogSeason info s).Nodup
    ∧ ∀ e, e ∈ catalogSeason info s ↔
        ∃ td ∈ info, ∃ p ∈ td.2.episodes, p.1 = s ∧ e ∈ p.2 :=
  ⟨catalogSeason_pairwise info s,
   (catalogSeason_pairwise info s).imp (fun h => Nat.ne_of_lt h),
   fun e => catalogSeason_mem info s e⟩

/-- Witness for C2 at a concrete map: episode 2 of season 1 offered by the
lone translator is in the catalog. -/
theorem claim_C2_catalog_witness :
    2 ∈ catalogSeason [(1, ⟨"A", false, [(1, [2, 4])]⟩)] 1 :=
  ((claim_C2_catalog [(1, ⟨"A", false, [(1, [2, 4])]⟩)] 1).2.2 2).mpr
    ⟨(1, ⟨"A", false, [(1, [2, 4])]⟩), List.mem_singleton.mpr rfl,
     (1, [2, 4]), List.mem_singleton.mpr rfl, rfl, by decide⟩

/-- Claim C3: translator candidate filtering is exact: a translator is in
`valid_translators` iff it is in the series info and, for every
(season, episode) pair of the target, its episode map has that season and
that episode number. -/
theorem claim_C3_filter_exact (info : List (Nat × TranslatorData))
    (target : List (Nat × Nat)) (td : Nat × TranslatorData) :
    td ∈ validTranslators info target ↔
      td ∈ info ∧ ∀ se ∈ target,
        ∃ lst, td.2.episodes.lookup se.1 = some lst ∧ se.2 ∈ lst := by
  unfold validTranslators
  rw [List.mem_filter, hasAllEpisodes_iff]

/-- Witness for C3 at a concrete map and target. -/
theorem claim_C3_filter_exact_witness :
    (1, (⟨"A", false, [(1, [1, 2])]⟩ : TranslatorData))
      ∈ validTranslators [(1, ⟨"A", false, [(1, [1, 2])]⟩)] [(1, 1)] :=
  (claim_C3_filter_exact [(1, ⟨"A", false, [(1, [1, 2])]⟩)] [(1, 1)]
      (1, ⟨"A", false, [(1, [1, 2])]⟩)).mpr
    ⟨List.mem_singleton.mpr rfl, by
      intro se hse
      rw [List.mem_singleton] at hse
      subst hse
      exact ⟨[1, 2], rfl, by decide⟩⟩

/-- Claim C5 (amended): the display ordering ranks labels by the fixed table
4K/2160p=5 > 2K/1440p=4 > FHD/1080p=3 > HD/720p=2 > SD/480p=1, with 360p and
unranked labels SHARING the lowest priority 0 (the original claim's "unranked
strictly lowest" fails, see the counterexample); sorting is a permutation of
the available qualities (presentation-only) and ties keep discovery order. -/
theorem claim_C5_quality_order :
    get_quality_priority "2160p" = 5 ∧ get_quality_priority "4K" = 5
    ∧ get_quality_priority "1440p" = 4 ∧ get_quality_priority "2K" = 4
    ∧ get_quality_priority "1080p" = 3 ∧ get_quality_priority "FHD" = 3
    ∧ get_quality_priority "720p" = 2 ∧ get_quality_priority "HD" = 2
    ∧ get_quality_priority "480p" = 1 ∧ get_quality_priority "SD" = 1
    ∧ get_quality_priority "360p" = 0 ∧ get_quality_priority "webcam rip" = 0
    ∧ ∀ (l : List String),
        List.Perm (sortByDesc get_quality_priority l) l
        ∧ List.Pairwise
            (fun x y => get_quality_priority y ≤ get_quality_priority x)
            (sortByDesc get_quality_priority l)
        ∧ ∀ k, (sortByDesc get_quality_priority l).filter
              (fun x => get_quality_priority x == k)
            = l.filter (fun x => get_quality_priority x == k) :=
  ⟨by decide, by decide, by decide, by decide, by decide, by decide,
   by decide, by decide, by decide, by decide, by decide, by decide,
   fun l => ⟨sortByDesc_perm get_quality_priority l,
             sortByDesc_pairwise get_quality_priority l,
             fun k => sortByDesc_filter get_quality_priority k l⟩⟩

/-- Counterexample to C5 as stated: an unranked label is NOT strictly below
360p — both get priority 0, and the stable sort leaves an unranked label
ahead of a later-discovered "360p". -/
theorem claim_C5_counterexample :
    get_quality_priority "360p" = 0
    ∧ get_quality_priority "unranked" = 0
    ∧ sortByDesc get_quality_priority ["unranked", "360p"]
        = ["unranked", "360p"] := by
  decide

/-- Claim C8: loading with the config file missing keeps the in-memory
defaults and writes a file with the default values; loading with an
unreadable/corrupt file does the same; neither case raises (the embedding is
the total function `load_config`). -/
theorem claim_C8_config_defaults :
    load_config defaultConfig ConfigFileState.absent
      = (defaultConfig, ConfigFileState.valid defaultConfig)
    ∧ load_config defaultConfig ConfigFileState.unreadable
      = (defaultConfig, ConfigFileState.valid defaultConfig) :=
  ⟨rfl, rfl⟩

/-! ## Selection precedence (C4) -/

/-- Claim C4 (amended): both pickers follow the precedence with respect to
their `auto_select` PARAMETER — which every call site leaves at its Python
default `True`; the configured `auto_select_single_option` is never passed
(see the counterexample).  Precedence: a lone option with `auto_select`
is chosen silently; otherwise a truthy configured preference that matches
(substring on the translator name, exact membership for the quality) is
chosen; otherwise the user is prompted over the displayed list. -/
theorem claim_C4_precedence (ts : List (Nat × TInfo)) (qs : List String)
    (cfg : DownloadConfig) (a : Bool) :
    (∀ t, ts = [t] → a = true →
      select_translator ts cfg a = Except.ok (PickStep.autoSingle t.1))
    ∧ (ts ≠ [] → (ts.length = 1 → a = false) → ∀ td,
        prefTranslatorMatch cfg ts = some td →
          select_translator ts cfg a = Except.ok (PickStep.preferred td.1))
    ∧ (ts ≠ [] → (ts.length = 1 → a = false) →
        prefTranslatorMatch cfg ts = none →
          select_translator ts cfg a
            = Except.ok (PickStep.prompted (ts.map Prod.fst)))
    ∧ (∀ td, prefTranslatorMatch cfg ts = some td →
        td ∈ ts ∧ ∃ p, cfg.preferred_translator = some p
          ∧ strContains p td.2.name = true)
    ∧ (∀ q, qs ≠ [] → sortByDesc get_quality_priority qs = [q] → a = true →
        select_quality qs cfg a = Except.ok (PickStep.autoSingle q))
    ∧ (qs ≠ [] → ((sortByDesc get_quality_priority qs).length = 1 → a = false) →
        ∀ p, prefQualityMatch cfg qs = some p →
          select_quality qs cfg a = Except.ok (PickStep.preferred p))
    ∧ (qs ≠ [] → ((sortByDesc get_quality_priority qs).length = 1 → a = false) →
        prefQualityMatch cfg qs = none →
          select_quality qs cfg a
            = Except.ok (PickStep.prompted (sortByDesc get_quality_priority qs)))
    ∧ (∀ p, prefQualityMatch cfg qs = some p →
        cfg.preferred_quality = some p ∧ p ∈ qs) := by
  have hcondT : ∀ (t : Nat × TInfo) (rest : List (Nat × TInfo)),
      ts = t :: rest → (ts.length = 1 → a = false) →
      (rest.isEmpty && a) = false := by
    intro t rest hts hlen
    cases rest with
    | nil =>
      have := hlen (by rw [hts]; rfl)
      subst this
      rfl
    | cons u us => rfl
  refine ⟨?_, ?_, ?_, ?_, ?_, ?_, ?_, ?_⟩
  · intro t hts ha
    subst hts
    subst ha
    rfl
  · intro hne hlen td hpref
    cases hts : ts with
    | nil => exact absurd hts hne
    | cons t rest =>
      have hc := hcondT t rest hts hlen
      rw [hts] at hpref
      simp only [select_translator, hc, Bool.false_eq_true, if_false, hpref]
  · intro hne hlen hpref
    cases hts : ts with
    | nil => exact absurd hts hne
    | cons t rest =>
      have hc := hcondT t rest hts hlen
      rw [hts] at hpref
      simp only [hts, select_translator, hc, Bool.false_eq_true, if_false, hpref]
  · intro td hpref
    unfold prefTranslatorMatch at hpref
    split at hpref
    · exact absurd hpref (by simp)
    · rename_i p hp
      by_cases he : p.isEmpty
      · rw [if_pos he] at hpref
        exact absurd hpref (by simp)
      · rw [if_neg he] at hpref
        have h2 := List.find?_some hpref
        exact ⟨List.mem_of_find?_eq_some hpref, p, hp, by simpa using h2⟩
  · intro q hne hsort ha
    subst ha
    cases qs with
    | nil => exact absurd rfl hne
    | cons q0 qrest =>
      simp only [select_quality, hsort]
  · intro hne hlen p hpref
    cases qs with
    | nil => exact absurd rfl hne
    | cons q0 qrest =>
      cases hsort : sortByDesc get_quality_priority (q0 :: qrest) with
      | nil => simp only [select_quality, hsort, hpref]
      | cons q1 qtail =>
        cases qtail with
        | nil =>
          have ha : a = false := hlen (by rw [hsort]; rfl)
          subst ha
          simp only [select_quality, hsort, hpref]
        | cons q2 qtail2 =>
          cases a <;> simp only [select_quality, hsort, hpref]
  · intro hne hlen hpref
    cases qs with
    | nil => exact absurd rfl hne
    | cons q0 qrest =>
      cases hsort : sortByDesc get_quality_priority (q0 :: qrest) with
      | nil => simp only [select_quality, hsort, hpref]
      | cons q1 qtail =>
        cases qtail with
        | nil =>
          have ha : a = false := hlen (by rw [hsort]; rfl)
          subst ha
          simp only [select_quality, hsort, hpref]
        | cons q2 qtail2 =>
          cases a <;> simp only [select_quality, hsort, hpref]
  · intro p hpref
    unfold prefQualityMatch at hpref
    split at hpref
    · exact absurd hpref (by simp)
    · rename_i p0 hp
      by_cases he : p0.isEmpty
      · rw [if_pos he] at hpref
        exact absurd hpref (by simp)
      · rw [if_neg he] at hpref
        by_cases hm : p0 ∈ qs
        · rw [if_pos hm] at hpref
          cases hpref
          exact ⟨hp, hm⟩
        · rw [if_neg hm] at hpref
          exact absurd hpref (by simp)

/-- Witness for C4: a lone translator with the parameter true is
auto-selected. -/
theorem claim_C4_precedence_witness :
    select_translator [(7, ⟨"Дубляж", false⟩)] defaultConfig true
      = Except.ok (PickStep.autoSingle 7) :=
  (claim_C4_precedence [(7, ⟨"Дубляж", false⟩)] ["720p"] defaultConfig true).1
    (7, ⟨"Дубляж", false⟩) rfl rfl

/-- The config with auto-select-single disabled. -/
def cfgNoAuto : DownloadConfig :=
  { defaultConfig with auto_select_single_option := false }

/-- Counterexample to C4 as stated: with `auto_select_single_option = false`
in the configuration, no preference configured and exactly one option, the
claim says the user is prompted; the code auto-selects silently, because the
call sites (source lines 463 and 475) never pass the configured flag — the
functions run with their Python default `auto_select=True`. -/
theorem claim_C4_counterexample :
    cfgNoAuto.auto_select_single_option = false
    ∧ cfgNoAuto.preferred_translator = none
    ∧ cfgNoAuto.preferred_quality = none
    ∧ select_translator [(7, ⟨"Дубляж", false⟩)] cfgNoAuto true
        = Except.ok (PickStep.autoSingle 7)
    ∧ select_quality ["720p"] cfgNoAuto true
        = Except.ok (PickStep.autoSingle "720p")
    ∧ PickStep.autoSingle 7 ≠ PickStep.prompted [7]
    ∧ PickStep.autoSingle "720p" ≠ PickStep.prompted ["720p"] :=
  ⟨rfl, rfl, rfl, rfl, rfl, by decide, by decide⟩

/-! ## Download-manager lemmas (C6, C9, C10) -/

theorem download_file_exists (net : NetOracle) (st : DMState)
    (url filepath : String) (h : filepath ∈ st.fs) :
    download_file net st url filepath
      = ((true, "Файл уже существует"), { st with stats := bumpTotal st.stats }) := by
  unfold download_file
  rw [if_pos h]

theorem download_file_head_none (net : NetOracle) (st : DMState)
    (url filepath : String) (hm : filepath ∉ st.fs)
    (hh : net.head url = none) :
    download_file net st url filepath
      = ((false, "Ошибка сети"),
         { st with netRequests := st.netRequests + 1,
                   stats := bumpTotal st.stats }) := by
  unfold download_file
  rw [if_neg hm, hh]

theorem download_file_body_none (net : NetOracle) (st : DMState)
    (url filepath : String) (len : Nat) (hm : filepath ∉ st.fs)
    (hh : net.head url = some len) (hb : net.body url = none) :
    download_file net st url filepath
      = ((false, "Ошибка сети"),
         { st with netRequests := st.netRequests + 2,
                   stats := bumpTotal st.stats }) := by
  unfold download_file
  rw [if_neg hm, hh, hb]

theorem download_file_ok (net : NetOracle) (st : DMState)
    (url filepath : String) (len : Nat) (chunks : List Nat)
    (hm : filepath ∉ st.fs) (hh : net.head url = some len)
    (hb : net.body url = some chunks) :
    download_file net st url filepath
      = ((true, "Успешно"),
         { fs := filepath :: st.fs
           netRequests := st.netRequests + 2
           stats :=
             { total_downloads := st.stats.total_downloads + 1
               successful_downloads := st.stats.successful_downloads + 1
               failed_downloads := st.stats.failed_downloads
               total_bytes :=
                 st.stats.total_bytes + chunks.foldl (fun a c => a + c) 0 } }) := by
  unfold download_file
  rw [if_neg hm, hh, hb]

theorem download_file_success_mem (net : NetOracle) (st : DMState)
    (url filepath : String)
    (h : (download_file net st url filepath).1.1 = true) :
    filepath ∈ (download_file net st url filepath).2.fs := by
  by_cases hm : filepath ∈ st.fs
  · rw [download_file_exists net st url filepath hm]
    exact hm
  · cases hh : net.head url with
    | none =>
      rw [download_file_head_none net st url filepath hm hh] at h
      exact absurd h (by simp)
    | some len =>
      cases hb : net.body url with
      | none =>
        rw [download_file_body_none net st url filepath len hm hh hb] at h
        exact absurd h (by simp)
      | some chunks =>
        rw [download_file_ok net st url filepath len chunks hm hh hb]
        exact List.mem_cons_self filepath st.fs

theorem download_file_failed_const (net : NetOracle) (st : DMState)
    (url filepath : String) :
    (download_file net st url filepath).2.stats.failed_downloads
      = st.stats.failed_downloads := by
  unfold download_file
  by_cases hm : filepath ∈ st.fs
  · rw [if_pos hm]
    rfl
  · rw [if_neg hm]
    cases net.head url with
    | none => rfl
    | some len =>
      cases net.body url with
      | none => rfl
      | some chunks => rfl

theorem download_file_total (net : NetOracle) (st : DMState)
    (url filepath : String) :
    (download_file net st url filepath).2.stats.total_downloads
      = st.stats.total_downloads + 1 := by
  unfold download_file
  by_cases hm : filepath ∈ st.fs
  · rw [if_pos hm]
    rfl
  · rw [if_neg hm]
    cases net.head url with
    | none => rfl
    | some len =>
      cases net.body url with
      | none => rfl
      | some chunks => rfl

theorem download_file_succ_le (net : NetOracle) (st : DMState)
    (url filepath : String) :
    (download_file net st url filepath).2.stats.successful_downloads
      ≤ st.stats.successful_downloads + 1 := by
  unfold download_file
  by_cases hm : filepath ∈ st.fs
  · rw [if_pos hm]
    exact Nat.le_succ _
  · rw [if_neg hm]
    cases net.head url with
    | none => exact Nat.le_succ _
    | some len =>
      cases net.body url with
      | none => exact Nat.le_succ _
      | some chunks => exact Nat.le_refl _

theorem download_file_succ_of_false (net : NetOracle) (st : DMState)
    (url filepath : String)
    (h : (download_file net st url filepath).1.1 = false) :
    (download_file net st url filepath).2.stats.successful_downloads
      = st.stats.successful_downloads := by
  by_cases hm : filepath ∈ st.fs
  · rw [download_file_exists net st url filepath hm] at h
    exact absurd h (by simp)
  · cases hh : net.head url with
    | none =>
      rw [download_file_head_none net st url filepath hm hh]
      rfl
    | some len =>
      cases hb : net.body url with
      | none =>
        rw [download_file_body_none net st url filepath len hm hh hb]
        rfl
      | some chunks =>
        rw [download_file_ok net st url filepath len chunks hm hh hb] at h
        exact absurd h (by simp)

/-- Concrete network oracle where every request succeeds. -/
def netOk : NetOracle := ⟨fun _ => some 100, fun _ => some [100]⟩

/-- Concrete network oracle where every request fails. -/
def netFail : NetOracle := ⟨fun _ => none, fun _ => none⟩

/-- Claim C6: a destination path that already exists makes `download_file`
return success with no network request issued; consequently a second call
with the same path after a successful first call returns success and issues
no further network request (any oracle, any URL). -/
theorem claim_C6_exists_short_circuit (net net2 : NetOracle) (st : DMState)
    (url url2 filepath : String) :
    (filepath ∈ st.fs →
      (download_file net st url filepath).1.1 = true
      ∧ (download_file net st url filepath).2.netRequests = st.netRequests)
    ∧ ((download_file net st url filepath).1.1 = true →
      (download_file net2 (download_file net st url filepath).2 url2 filepath).1.1 = true
      ∧ (download_file net2 (download_file net st url filepath).2 url2 filepath).2.netRequests
        = (download_file net st url filepath).2.netRequests) := by
  constructor
  · intro h
    rw [download_file_exists net st url filepath h]
    exact ⟨rfl, rfl⟩
  · intro h
    have hmem := download_file_success_mem net st url filepath h
    rw [download_file_exists net2 (download_file net st url filepath).2 url2 filepath hmem]
    exact ⟨rfl, rfl⟩

/-- Witness for C6: with the file present, the call succeeds and the request
counter stays at 0. -/
theorem claim_C6_witness :
    (download_file netOk ⟨["f"], initStats, 0⟩ "u" "f").1.1 = true
    ∧ (download_file netOk ⟨["f"], initStats, 0⟩ "u" "f").2.netRequests = 0 :=
  (claim_C6_exists_short_circuit netOk netOk ⟨["f"], initStats, 0⟩ "u" "u2" "f").1
    (by decide)

/-- Claim C10: the already-exists short circuit returns success but updates
only `total_downloads` (the `finally:` increment); `successful_downloads` and
`total_bytes` are unchanged, so the pre-existing file counts as an attempt
but not as a success. -/
theorem claim_C10_exists_frame (net : NetOracle) (st : DMState)
    (url filepath : String) (h : filepath ∈ st.fs) :
    (download_file net st url filepath).1.1 = true
    ∧ (download_file net st url filepath).2.stats.total_downloads
        = st.stats.total_downloads + 1
    ∧ (download_file net st url filepath).2.stats.successful_downloads
        = st.stats.successful_downloads
    ∧ (download_file net st url filepath).2.stats.total_bytes
        = st.stats.total_bytes := by
  rw [download_file_exists net st url filepath h]
  exact ⟨rfl, rfl, rfl, rfl⟩

/-- Witness for C10 at a concrete state with nonzero counters. -/
theorem claim_C10_exists_frame_witness :
    (download_file netFail ⟨["g"], ⟨5, 2, 0, 7⟩, 3⟩ "u" "g").1.1 = true
    ∧ (download_file netFail ⟨["g"], ⟨5, 2, 0, 7⟩, 3⟩ "u" "g").2.stats.total_downloads = 6
    ∧ (download_file netFail ⟨["g"], ⟨5, 2, 0, 7⟩, 3⟩ "u" "g").2.stats.successful_downloads = 2
    ∧ (download_file netFail ⟨["g"], ⟨5, 2, 0, 7⟩, 3⟩ "u" "g").2.stats.total_bytes = 7 := by
  have h := claim_C10_exists_frame netFail ⟨["g"], ⟨5, 2, 0, 7⟩, 3⟩ "u" "g" (by decide)
  exact ⟨h.1, h.2.1, h.2.2.1, h.2.2.2⟩

/-! ## Download sequences (C9) -/

/-- Number of failure results in a result list. -/
def falseCount (rs : List (Bool × String)) : Nat :=
  (rs.filter (fun r => !r.1)).length

theorem runDownloads_failed (net : NetOracle) (calls : List (String × String))
    (st : DMState) :
    (runDownloads net calls st).1.stats.failed_downloads
      = st.stats.failed_downloads := by
  induction calls generalizing st with
  | nil => rfl
  | cons c rest ih =>
    obtain ⟨u, p⟩ := c
    simp only [runDownloads]
    rw [ih]
    exact download_file_failed_const net st u p

theorem runDownloads_total (net : NetOracle) (calls : List (String × String))
    (st : DMState) :
    (runDownloads net calls st).1.stats.total_downloads
      = st.stats.total_downloads + calls.length := by
  induction calls generalizing st with
  | nil => rfl
  | cons c rest ih =>
    obtain ⟨u, p⟩ := c
    simp only [runDownloads, List.length_cons]
    rw [ih, download_file_total net st u p]
    omega

theorem runDownloads_succ_bound (net : NetOracle)
    (calls : List (String × String)) (st : DMState) :
    (runDownloads net calls st).1.stats.successful_downloads
        + falseCount (runDownloads net calls st).2
      ≤ st.stats.successful_downloads + calls.length := by
  induction calls generalizing st with
  | nil => simp [runDownloads, falseCount]
  | cons c rest ih =>
    obtain ⟨u, p⟩ := c
    simp only [runDownloads, List.length_cons]
    have h1 := download_file_succ_le net st u p
    have h2 := ih ((download_file net st u p).2)
    by_cases hr : (download_file net st u p).1.1 = true
    · have h3 : falseCount ((download_file net st u p).1
            :: (runDownloads net rest (download_file net st u p).2).2)
          = falseCount (runDownloads net rest (download_file net st u p).2).2 := by
        simp [falseCount, List.filter_cons, hr]
      rw [h3]
      omega
    · have hr2 : (download_file net st u p).1.1 = false := by
        cases hc : (download_file net st u p).1.1
        · rfl
        · exact absurd hc hr
      have h3 : falseCount ((download_file net st u p).1
            :: (runDownloads net rest (download_file net st u p).2).2)
          = falseCount (runDownloads net rest (download_file net st u p).2).2 + 1 := by
        simp [falseCount, List.filter_cons, hr2]
      have h4 := download_file_succ_of_false net st u p hr2
      rw [h3]
      omega

/-- Claim C9: `failed_downloads` is never incremented: after any sequence of
`download_file` calls from a fresh manager it is still 0, and whenever some
call in the sequence returned a failure the purported invariant
total = successful + failed cannot hold. -/
theorem claim_C9_failed_counter (net : NetOracle) (fs0 : List String)
    (calls : List (String × String)) :
    (runDownloads net calls ⟨fs0, initStats, 0⟩).1.stats.failed_downloads = 0
    ∧ ((∃ r ∈ (runDownloads net calls ⟨fs0, initStats, 0⟩).2, r.1 = false) →
        (runDownloads net calls ⟨fs0, initStats, 0⟩).1.stats.total_downloads
          ≠ (runDownloads net calls ⟨fs0, initStats, 0⟩).1.stats.successful_downloads
            + (runDownloads net calls ⟨fs0, initStats, 0⟩).1.stats.failed_downloads) := by
  constructor
  · rw [runDownloads_failed]
    rfl
  · rintro ⟨r, hr, hrf⟩
    have hmemf : r ∈ ((runDownloads net calls ⟨fs0, initStats, 0⟩).2.filter
        (fun r => !r.1)) :=
      List.mem_filter.mpr ⟨hr, by rw [hrf]; rfl⟩
    have hfc : 1 ≤ falseCount (runDownloads net calls ⟨fs0, initStats, 0⟩).2 :=
      List.length_pos_of_mem hmemf
    have hsb := runDownloads_succ_bound net calls ⟨fs0, initStats, 0⟩
    have htot := runDownloads_total net calls ⟨fs0, initStats, 0⟩
    have hfail := runDownloads_failed net calls ⟨fs0, initStats, 0⟩
    have e1 : (⟨fs0, initStats, 0⟩ : DMState).stats.successful_downloads = 0 := rfl
    have e2 : (⟨fs0, initStats, 0⟩ : DMState).stats.total_downloads = 0 := rfl
    have e3 : (⟨fs0, initStats, 0⟩ : DMState).stats.failed_downloads = 0 := rfl
    rw [e1] at hsb
    rw [e2] at htot
    rw [e3] at hfail
    omega

/-- Witness for C9: a single failing call leaves total = 1 while
successful = failed = 0, breaking the purported invariant. -/
theorem claim_C9_failed_counter_witness :
    (runDownloads netFail [("u", "p")] ⟨[], initStats, 0⟩).1.stats.total_downloads
      ≠ (runDownloads netFail [("u", "p")] ⟨[], initStats, 0⟩).1.stats.successful_downloads
        + (runDownloads netFail [("u", "p")] ⟨[], initStats, 0⟩).1.stats.failed_downloads :=
  (claim_C9_failed_counter netFail [] [("u", "p")]).2
    ⟨(false, "Ошибка сети"), by decide, rfl⟩

/-! ## Series phase (C7) and the batch pass (C1) -/

/-- Claim C7: when the filtered translator-candidate list is empty,
`process_series` aborts with the error before any stream-manifest request or
download network I/O: the result is the failure report with the manager state
untouched (same `netRequests`) and an empty `getStream` call log, for every
stream and network oracle. -/
theorem claim_C7_no_candidates_abort (info : List (Nat × TranslatorData))
    (target : List (Nat × Nat)) (cfg : DownloadConfig)
    (userT : List Nat → Nat) (userQ : List String → Nat)
    (gs : StreamOracle) (net : NetOracle) (dm : DMState) (folder : String)
    (h : validTranslators info target = []) :
    process_series_phase info target cfg userT userQ gs net dm folder
      = ⟨false, some "Нет переводчиков с необходимыми эпизодами", none, dm, []⟩ := by
  unfold process_series_phase
  rw [h]

/-- Stream oracle that never returns a manifest. -/
def gsNone : StreamOracle := fun _ _ _ _ => none

/-- Witness for C7: one translator lacking the requested season, so the
candidate list is empty and the phase aborts untouched. -/
theorem claim_C7_no_candidates_abort_witness :
    process_series_phase [(1, ⟨"X", false, [(1, [1])]⟩)] [(2, 1)] defaultConfig
        (fun _ => 1) (fun _ => 1) gsNone netOk ⟨[], initStats, 0⟩ "d"
      = ⟨false, some "Нет переводчиков с необходимыми эпизодами", none,
         ⟨[], initStats, 0⟩, []⟩ :=
  claim_C7_no_candidates_abort [(1, ⟨"X", false, [(1, [1])]⟩)] [(2, 1)]
    defaultConfig (fun _ => 1) (fun _ => 1) gsNone netOk ⟨[], initStats, 0⟩ "d"
    (by decide)

theorem runBatch_attempts (gs : StreamOracle) (net : NetOracle) (tid : Nat)
    (quality folder : String) (targets : List (Nat × Nat)) (dm : DMState)
    (att : List (Nat × Nat)) :
    (runBatch gs net tid quality folder targets dm att).attempts
      = att ++ targets := by
  induction targets generalizing dm att with
  | nil => simp [runBatch]
  | cons t rest ih =>
    obtain ⟨s, e⟩ := t
    cases hgs : gs tid (keyCount (s, e) att) s e with
    | none => simp [runBatch, hgs, ih]
    | some m =>
      cases hlk : m.videos.lookup quality with
      | none => simp [runBatch, hgs, hlk, ih]
      | some url =>
        by_cases hr : (download_file net dm url
            (folder ++ "/" ++ episodeFilename s e quality)).1.1 = true
        · simp [runBatch, hgs, hlk, hr, ih]
        · simp [runBatch, hgs, hlk, hr, ih]

theorem runBatch_count (gs : StreamOracle) (net : NetOracle) (tid : Nat)
    (quality folder : String) (targets : List (Nat × Nat)) (dm : DMState)
    (att : List (Nat × Nat)) :
    (runBatch gs net tid quality folder targets dm att).successful_downloads
      + (runBatch gs net tid quality folder targets dm att).failed_downloads.length
      = targets.length := by
  induction targets generalizing dm att with
  | nil => simp [runBatch]
  | cons t rest ih =>
    obtain ⟨s, e⟩ := t
    cases hgs : gs tid (keyCount (s, e) att) s e with
    | none =>
      have h := ih dm (att ++ [(s, e)])
      simp only [runBatch, hgs, List.length_cons]
      omega
    | some m =>
      cases hlk : m.videos.lookup quality with
      | none =>
        have h := ih dm (att ++ [(s, e)])
        simp only [runBatch, hgs, hlk, List.length_cons]
        omega
      | some url =>
        by_cases hr : (download_file net dm url
            (folder ++ "/" ++ episodeFilename s e quality)).1.1 = true
        · have h := ih (download_file net dm url
              (folder ++ "/" ++ episodeFilename s e quality)).2 (att ++ [(s, e)])
          simp only [runBatch, hgs, hlk, hr, if_true, List.length_cons]
          omega
        · have h := ih (download_file net dm url
              (folder ++ "/" ++ episodeFilename s e quality)).2 (att ++ [(s, e)])
          simp only [runBatch, hgs, hlk, hr, Bool.false_eq_true, if_false, List.length_cons]
          omega

theorem runBatch_failed_mem (gs : StreamOracle) (net : NetOracle) (tid : Nat)
    (quality folder : String) (targets : List (Nat × Nat)) (dm : DMState)
    (att : List (Nat × Nat)) :
    ∀ f ∈ (runBatch gs net tid quality folder targets dm att).failed_downloads,
      (f.1, f.2.1) ∈ targets := by
  induction targets generalizing dm att with
  | nil => simp [runBatch]
  | cons t rest ih =>
    obtain ⟨s, e⟩ := t
    intro f hf
    cases hgs : gs tid (keyCount (s, e) att) s e with
    | none =>
      simp only [runBatch, hgs] at hf
      rcases List.mem_cons.mp hf with hf1 | hf2
      · subst hf1
        exact List.mem_cons_self _ _
      · exact List.mem_cons_of_mem _ (ih dm (att ++ [(s, e)]) f hf2)
    | some m =>
      cases hlk : m.videos.lookup quality with
      | none =>
        simp only [runBatch, hgs, hlk] at hf
        rcases List.mem_cons.mp hf with hf1 | hf2
        · subst hf1
          exact List.mem_cons_self _ _
        · exact List.mem_cons_of_mem _ (ih dm (att ++ [(s, e)]) f hf2)
      | some url =>
        by_cases hr : (download_file net dm url
            (folder ++ "/" ++ episodeFilename s e quality)).1.1 = true
        · simp only [runBatch, hgs, hlk, hr, if_true] at hf
          exact List.mem_cons_of_mem _ (ih (download_file net dm url
            (folder ++ "/" ++ episodeFilename s e quality)).2 (att ++ [(s, e)]) f hf)
        · simp only [runBatch, hgs, hlk, hr, Bool.false_eq_true, if_false] at hf
          rcases List.mem_cons.mp hf with hf1 | hf2
          · subst hf1
            exact List.mem_cons_self _ _
          · exact List.mem_cons_of_mem _ (ih (download_file net dm url
              (folder ++ "/" ++ episodeFilename s e quality)).2 (att ++ [(s, e)]) f hf2)

/-- Claim C1 (amended): the batch engine performs exactly ONE sequential pass:
every target is attempted exactly once, in order, with successes and failures
partitioning the pass and every failure keyed by a target; there is no retry
round and the user is never offered one (the reported failures are final, see
the counterexample). -/
theorem claim_C1_single_pass (gs : StreamOracle) (net : NetOracle) (tid : Nat)
    (quality folder : String) (targets : List (Nat × Nat)) (dm : DMState)
    (att : List (Nat × Nat)) :
    (runBatch gs net tid quality folder targets dm att).attempts = att ++ targets
    ∧ (runBatch gs net tid quality folder targets dm att).successful_downloads
        + (runBatch gs net tid quality folder targets dm att).failed_downloads.length
      = targets.length
    ∧ ∀ f ∈ (runBatch gs net tid quality folder targets dm att).failed_downloads,
        (f.1, f.2.1) ∈ targets :=
  ⟨runBatch_attempts gs net tid quality folder targets dm att,
   runBatch_count gs net tid quality folder targets dm att,
   runBatch_failed_mem gs net tid quality folder targets dm att⟩

/-- Witness for C1 at a concrete two-target run: both targets attempted once. -/
theorem claim_C1_single_pass_witness :
    (runBatch gsNone netOk 11 "720p" "folder" [(1, 1), (1, 2)]
        ⟨[], initStats, 0⟩ []).attempts = [(1, 1), (1, 2)] :=
  (claim_C1_single_pass gsNone netOk 11 "720p" "folder" [(1, 1), (1, 2)]
    ⟨[], initStats, 0⟩ []).1

/-- Stream oracle realising the spec's retry scenario: episodes 2 and 4 fail
on their first attempt (prior attempt count 0) and would succeed on any later
attempt; all other episodes always succeed with a 720p stream. -/
def gsScenario : StreamOracle := fun _tid a _s e =>
  if (e == 2 || e == 4) && a == 0 then none
  else some ⟨[("720p", "u")]⟩

/-- The series info for the scenario: one translator with season 1,
episodes 1-5. -/
def info1 : List (Nat × TranslatorData) :=
  [(11, ⟨"Dub", false, [(1, [1, 2, 3, 4, 5])]⟩)]

/-- The scenario target: the five episodes of season 1. -/
def target5 : List (Nat × Nat) := [(1, 1), (1, 2), (1, 3), (1, 4), (1, 5)]

/-- Counterexample to C1 as stated: in the spec's own scenario (targets
T1..T5 where T2 and T4 fail on the first attempt and would succeed on a
second), the claim promises that after one user-approved retry all five are
successes with zero remaining failures.  The code has no retry round at all:
`process_series` ends after the single pass with episodes 2 and 4 still
failed (3 successes), without ever asking the user. -/
theorem claim_C1_counterexample :
    gsScenario 11 0 1 2 = none
    ∧ gsScenario 11 0 1 4 = none
    ∧ gsScenario 11 1 1 2 = some ⟨[("720p", "u")]⟩
    ∧ gsScenario 11 1 1 4 = some ⟨[("720p", "u")]⟩
    ∧ ((process_series_phase info1 target5 defaultConfig (fun _ => 1)
          (fun _ => 1) gsScenario netOk ⟨[], initStats, 0⟩ "folder").batch.map
        (fun b => (b.successful_downloads,
                   b.failed_downloads.map (fun f => (f.1, f.2.1)))))
      = some (3, [(1, 2), (1, 4)]) := by
  refine ⟨rfl, rfl, rfl, rfl, ?_⟩
  decide
